import Mathlib

/-!
Verification of the ask-vid-gpt backend (transcript chunking, transcript
storage, user creation, and the authentication gate) against its
natural-language specification.  Python strings are modelled as `List Char`,
the database as explicit record lists, and every service function is a pure
Lean function translated from `src/backend/app`.
-/

namespace AskVid

/-! ## Python string primitives -/

/-- Whitespace recognized by Python's `str.strip()` (ASCII subset used by the
transcripts, which are plain text). -/
def pyIsSpace (c : Char) : Bool :=
  c == ' ' || c == '\t' || c == '\n' || c == '\r' || c == '\x0b' || c == '\x0c'

/-- Python `s.strip()`: drop leading and trailing whitespace. -/
def pyStrip (l : List Char) : List Char :=
  ((l.dropWhile pyIsSpace).reverse.dropWhile pyIsSpace).reverse

/-- Python slice `s[start:stop]`. -/
def pySlice (l : List Char) (start stop : Nat) : List Char :=
  (l.drop start).take (stop - start)

/-- Scan positions `start + n - 1, …, start` (top down) for a space character;
helper for `rfindSpace`. -/
def rfindSpaceAux (content : List Char) (start : Nat) : Nat → Option Nat
  | 0 => none
  | n + 1 =>
    if content.getD (start + n) 'a' == ' ' then some (start + n)
    else rfindSpaceAux content start n

/-- Python `content.rfind(" ", start, stop)`: highest index `i` with
`start ≤ i < stop` and `content[i] = ' '`, if any. -/
def rfindSpace (content : List Char) (start stop : Nat) : Option Nat :=
  rfindSpaceAux content start (stop - start)

/-- The non-whitespace characters of a string, in order. -/
def nonspace (l : List Char) : List Char :=
  l.filter (fun c => !pyIsSpace c)

/-! ## Transcript chunker (`transcript_service.py`) -/

/-- `_CHUNK_SIZE_BY_LENGTH` from `transcript_service.py`. -/
def CHUNK_SIZE_BY_LENGTH : List (Nat × Nat) := [(4000, 2000), (8000, 4000), (15000, 8000)]

/-- `_DEFAULT_CHUNK_SIZE` from `transcript_service.py`. -/
def DEFAULT_CHUNK_SIZE : Nat := 8000

/-- The `for` loop of `_chunk_size_for_length`. -/
def chunkSizeLookup : List (Nat × Nat) → Nat → Nat
  | [], _ => DEFAULT_CHUNK_SIZE
  | (maxLen, cs) :: rest, len => if len ≤ maxLen then cs else chunkSizeLookup rest len

/-- `_chunk_size_for_length(length)`. -/
def chunk_size_for_length (len : Nat) : Nat :=
  chunkSizeLookup CHUNK_SIZE_BY_LENGTH len

/-- One iteration of the `while` loop of `_split_into_chunks`: the final cut
position for the chunk starting at `start` (`end = min(start + chunk_size,
len(content))` in the Python source, moved to just after the last space in
`[start, end]` when that space is strictly after `start`). -/
def stepEnd (content : List Char) (size start : Nat) : Nat :=
  if min (start + size) content.length < content.length then
    match rfindSpace content start (min (start + size) content.length + 1) with
    | some ls => if start < ls then ls + 1 else min (start + size) content.length
    | none => min (start + size) content.length
  else min (start + size) content.length

/-- The `while` loop of `_split_into_chunks`, with explicit fuel (the source
loop makes strict progress whenever `1 ≤ size`, see `chunker_terminates`). -/
def splitLoop (content : List Char) (size : Nat) : Nat → Nat → List (List Char)
  | 0, _ => []
  | fuel + 1, start =>
    if start < content.length then
      pyStrip (pySlice content start (stepEnd content size start)) ::
        splitLoop content size fuel (stepEnd content size start)
    else []

/-- `_split_into_chunks(content, chunk_size)`. -/
def split_into_chunks (content : List Char) (size : Nat) : List (List Char) :=
  let c := pyStrip content
  (splitLoop c size c.length 0).filter (fun ch => !ch.isEmpty)

/-- The chunking pipeline of `TranscriptService.create_transcript`:
trim, pick the tier size, split. -/
def chunk_texts (content : List Char) : List (List Char) :=
  let text := pyStrip content
  split_into_chunks text (chunk_size_for_length text.length)

/-! ## Spec-side description of the chunker

These definitions transcribe the specification's words ("select a target
chunk size from an ascending table of tiers … search backward from the cut
point for the nearest space strictly after the chunk start and cut there
instead …") rather than the Python source; `chunker_matches_spec` compares
the two. -/

/-- Tier table as the spec words it: length ≤ 4000 gives 2000, ≤ 8000 gives
4000, ≤ 15000 gives 8000, otherwise the default 8000. -/
def specChunkSize (len : Nat) : Nat :=
  if len ≤ 4000 then 2000
  else if len ≤ 8000 then 4000
  else if len ≤ 15000 then 8000
  else 8000

/-- Search backward from position `i` for the nearest space that lies
strictly after the chunk start. -/
def nearestPrecedingSpace (content : List Char) (start : Nat) : Nat → Option Nat
  | 0 => none
  | i + 1 =>
    if i + 1 ≤ start then none
    else if content.getD (i + 1) 'a' == ' ' then some (i + 1)
    else nearestPrecedingSpace content start i

/-- Greedy left-to-right split as the spec describes it: each chunk takes up
to `size` characters; when the cut point is not the end of the content the
cut moves back to the nearest preceding space (the space becomes the
boundary and is consumed), otherwise the hard cut is kept; every chunk is
trimmed. -/
def specSplitLoop (content : List Char) (size : Nat) : Nat → Nat → List (List Char)
  | 0, _ => []
  | fuel + 1, start =>
    if start < content.length then
      if min (start + size) content.length < content.length then
        match nearestPrecedingSpace content start (min (start + size) content.length) with
        | some p => pyStrip (pySlice content start p) :: specSplitLoop content size fuel (p + 1)
        | none =>
          pyStrip (pySlice content start (min (start + size) content.length)) ::
            specSplitLoop content size fuel (min (start + size) content.length)
      else
        pyStrip (pySlice content start (min (start + size) content.length)) ::
          specSplitLoop content size fuel (min (start + size) content.length)
    else []

/-- The whole chunker as the spec describes it: trim the input, select the
tier size from the trimmed length, split, drop empty chunks. -/
def specChunker (content : List Char) : List (List Char) :=
  let text := pyStrip content
  (specSplitLoop text (specChunkSize text.length) text.length 0).filter (fun ch => !ch.isEmpty)

/-! ## Data model

`models.py` declares `User(id, username)` and
`Transcript(id, video_id, content, created_at)` only; the service layer
additionally constructs `User(password=…)` and `Transcript(chunk_index=…)`
and sorts by `Transcript.chunk_index`.  The records below follow the service
layer's use; the discrepancy with `models.py` is recorded by
`userModelColumns`/`transcriptModelColumns` and settled in
`models_missing_service_fields`. -/

structure Transcript where
  id : Nat
  video_id : Nat
  content : List Char
  chunk_index : Nat
deriving DecidableEq

structure DBState where
  videos : List Nat
  transcripts : List Transcript
  nextId : Nat
deriving DecidableEq

/-- `VideoService.video_exists(video_id)`. -/
def video_exists (st : DBState) (vid : Nat) : Bool :=
  st.videos.contains vid

/-- The transcript rows built by the `for i, chunk_content in enumerate(...)`
loop of `create_transcript` (ids assigned sequentially on commit). -/
def mkChunkRecords (nextId vid : Nat) (chunkTexts : List (List Char)) : List Transcript :=
  chunkTexts.enum.map (fun p => { id := nextId + p.1, video_id := vid, content := p.2, chunk_index := p.1 })

/-- `TranscriptService.create_transcript(video_id, content)`: validation
errors are raised before any mutation; on success all prior chunks of the
video are deleted and the new enumerated chunks inserted. -/
def create_transcript (st : DBState) (vid : Nat) (content : List Char) :
    DBState × Except String (List Transcript) :=
  if content.isEmpty || (pyStrip content).isEmpty then
    (st, .error "Transcript content cannot be empty")
  else if !(video_exists st vid) then
    (st, .error "Video does not exist")
  else
    let news := mkChunkRecords st.nextId vid (chunk_texts content)
    ({ st with
        transcripts := st.transcripts.filter (fun t => !(t.video_id == vid)) ++ news,
        nextId := st.nextId + news.length },
     .ok news)

/-- Whether a service call completed without raising. -/
def exceptIsOk {ε α : Type} : Except ε α → Bool
  | .ok _ => true
  | .error _ => false

/-- `TranscriptService.delete_transcript(transcript_id)`: looks the row up by
primary key and deletes that single row. -/
def delete_transcript (st : DBState) (tid : Nat) : DBState × Bool :=
  match st.transcripts.find? (fun t => t.id == tid) with
  | none => (st, false)
  | some _ => ({ st with transcripts := st.transcripts.eraseP (fun t => t.id == tid) }, true)

/-- Ordering used by `order_by(Transcript.chunk_index)`. -/
def idxLE (a b : Transcript) : Prop :=
  a.chunk_index ≤ b.chunk_index

instance : DecidableRel idxLE := fun a b => Nat.decLe a.chunk_index b.chunk_index

instance : IsTotal Transcript idxLE := ⟨fun a b => Nat.le_total a.chunk_index b.chunk_index⟩

instance : IsTrans Transcript idxLE := ⟨fun _ _ _ => Nat.le_trans⟩

/-- Ordering used by `order_by(Transcript.video_id, Transcript.chunk_index)`. -/
def vidIdxLE (a b : Transcript) : Prop :=
  a.video_id < b.video_id ∨ (a.video_id = b.video_id ∧ a.chunk_index ≤ b.chunk_index)

instance : DecidableRel vidIdxLE := fun a b =>
  inferInstanceAs (Decidable (a.video_id < b.video_id ∨ (a.video_id = b.video_id ∧ a.chunk_index ≤ b.chunk_index)))

/-- `TranscriptService.get_transcripts_by_video(video_id)`: filter by video,
order by `chunk_index`. -/
def get_transcripts_by_video (st : DBState) (vid : Nat) : List Transcript :=
  List.insertionSort idxLE (st.transcripts.filter (fun t => t.video_id == vid))

/-- `TranscriptService.get_all_transcripts(limit, offset, video_id)`. -/
def get_all_transcripts (st : DBState) (limit offset : Option Nat) (video_id : Option Nat) :
    List Transcript :=
  let q := match video_id with
    | some vid => List.insertionSort idxLE (st.transcripts.filter (fun t => t.video_id == vid))
    | none => List.insertionSort vidIdxLE st.transcripts
  let q2 := match offset with
    | some o => q.drop o
    | none => q
  match limit with
  | some l => q2.take l
  | none => q2

/-- Per-video chunk indices held in a transcript table. -/
def chunkIndexes (ts : List Transcript) (vid : Nat) : List Nat :=
  (ts.filter (fun t => t.video_id == vid)).map (fun t => t.chunk_index)

/-- A video's stored chunk indices are exactly `0 … N-1`. -/
def ContiguousFrom0 (ts : List Transcript) (vid : Nat) : Prop :=
  (chunkIndexes ts vid).Perm (List.range (chunkIndexes ts vid).length)

/-- The per-video contiguity invariant over the whole store. -/
def TranscriptInv (st : DBState) : Prop :=
  ∀ vid, ContiguousFrom0 st.transcripts vid

/-- States reachable through the transcript operations, starting from a
store with no transcript rows (videos and the id counter arbitrary). -/
inductive ReachableT : DBState → Prop where
  | init (videos : List Nat) (nextId : Nat) : ReachableT ⟨videos, [], nextId⟩
  | create (st : DBState) (vid : Nat) (content : List Char) :
      ReachableT st → ReachableT (create_transcript st vid content).1
  | del (st : DBState) (tid : Nat) :
      ReachableT st → ReachableT (delete_transcript st tid).1

/-- States reachable using transcript creation only. -/
inductive ReachableCreate : DBState → Prop where
  | init (videos : List Nat) (nextId : Nat) : ReachableCreate ⟨videos, [], nextId⟩
  | create (st : DBState) (vid : Nat) (content : List Char) :
      ReachableCreate st → ReachableCreate (create_transcript st vid content).1

/-! ## Users (`user_service.py`, `routes/users.py`) -/

structure UserRec where
  id : Nat
  username : List Char
  password : List Char
deriving DecidableEq

structure UserState where
  users : List UserRec
  nextId : Nat
deriving DecidableEq

/-- Modelled from the spec: werkzeug's `generate_password_hash`, an external
standard-library primitive whose internals the spec delegates; no claim
depends on its value, so it is modelled as the identity map on the
password text. -/
def generate_password_hash (p : List Char) : List Char := p

inductive UserErr where
  | valueError
  | integrityError
deriving DecidableEq

/-- `UserService.username_exists(username)` (exact match on the stored
username). -/
def username_exists (st : UserState) (username : List Char) : Bool :=
  st.users.any (fun u => u.username == username)

/-- `UserService.create_user(username, password)`: validation errors before
any mutation; the database's unique constraint on `username` surfaces as an
`IntegrityError` (the stored username is the trimmed one). -/
def userservice_create_user (st : UserState) (username password : List Char) :
    UserState × Except UserErr UserRec :=
  if username.isEmpty || (pyStrip username).isEmpty then
    (st, .error .valueError)
  else if password.isEmpty then
    (st, .error .valueError)
  else
    let uname := pyStrip username
    if st.users.any (fun u => u.username == uname) then
      (st, .error .integrityError)
    else
      let u : UserRec := { id := st.nextId, username := uname, password := generate_password_hash password }
      ({ users := st.users ++ [u], nextId := st.nextId + 1 }, .ok u)

/-- JSON body of `POST /api/users`. -/
structure CreateUserBody where
  username : Option (List Char)
  password : Option (List Char)
deriving DecidableEq

/-- Python truthiness of `data.get(field)`: missing key or empty string. -/
def falsyStr : Option (List Char) → Bool
  | none => true
  | some s => s.isEmpty

/-- The `create_user` route handler: returns the new state and the HTTP
status code (400 validation, 409 conflict, 201 created). -/
def create_user_route (st : UserState) (body : Option CreateUserBody) : UserState × Nat :=
  match body with
  | none => (st, 400)
  | some data =>
    if falsyStr data.username then (st, 400)
    else if falsyStr data.password then (st, 400)
    else
      let username := data.username.getD []
      let password := data.password.getD []
      if username_exists st username then (st, 409)
      else
        match userservice_create_user st username password with
        | (st', .ok _) => (st', 201)
        | (st', .error .valueError) => (st', 400)
        | (st', .error .integrityError) => (st', 409)

/-! ## Auth gate (`middleware/auth.py`, `__init__.py`) -/

/-- An incoming HTTP request as the middleware sees it: the raw path, the
method, and the subject id carried by a valid bearer token (`none` when the
token is missing or fails verification). -/
structure AuthReq where
  path : String
  method : String
  token : Option Nat
deriving DecidableEq

/-- Outcome of the `before_request` hook: either the request proceeds (with
the user record and id attached to the request context when authentication
ran), or a 401 response is returned. -/
inductive AuthOutcome where
  | proceed (attached : Option (UserRec × Nat))
  | unauthorized
deriving DecidableEq

/-- Path normalisation of `require_auth`: strip a leading `/api`, then make
sure the result starts with `/`. -/
def stripApiPath (p : String) : String :=
  let p := if p.startsWith "/api" then p.drop 4 else p
  if p.startsWith "/" then p else "/" ++ p

/-- The `for exempt_route in exempt_routes` loop: exact path match, plus the
special case allowing `POST` to `/users`, tested on every iteration. -/
def isExemptLoop (routes : List String) (path method : String) : Bool :=
  match routes with
  | [] => false
  | r :: rest =>
    if path == r then true
    else if path == "/users" && method == "POST" then true
    else isExemptLoop rest path method

/-- `UserService.get_user_by_id` as used by the middleware. -/
def get_user_by_id (users : List UserRec) (uid : Nat) : Option UserRec :=
  users.find? (fun u => u.id == uid)

/-- The `require_auth` hook from `setup_auth_middleware`. -/
def require_auth (routes : List String) (users : List UserRec) (req : AuthReq) : AuthOutcome :=
  let path := stripApiPath req.path
  if isExemptLoop routes path req.method then
    .proceed none
  else
    match req.token with
    | none => .unauthorized
    | some uid =>
      match get_user_by_id users uid with
      | none => .unauthorized
      | some u => .proceed (some (u, uid))

/-- The exemption list passed by `create_app`. -/
def appExemptRoutes : List String := ["/login", "/logout", "/users"]

/-- The auth gate as the spec describes it: the stripped path is exempt
exactly when it is an exact member of the exemption set or the request is a
`POST` to the users-creation path; an exempt request proceeds without
authentication; otherwise a missing/invalid token or an unresolved user
yields 401, and on success the resolved user and its id are attached. -/
def authGateSpec (users : List UserRec) (req : AuthReq) : AuthOutcome :=
  let path := stripApiPath req.path
  if appExemptRoutes.contains path || (path == "/users" && req.method == "POST") then
    .proceed none
  else
    match req.token with
    | some uid =>
      match get_user_by_id users uid with
      | some u => .proceed (some (u, uid))
      | none => .unauthorized
    | none => .unauthorized

/-! ## Column lists (`models.py` versus the service layer) -/

/-- Columns declared on `User` in `models.py`. -/
def userModelColumns : List String := ["id", "username"]

/-- Columns declared on `Transcript` in `models.py`. -/
def transcriptModelColumns : List String := ["id", "video_id", "content", "created_at"]

/-- Keyword fields passed to the `User(...)` constructor in
`UserService.create_user`. -/
def userServiceInsertFields : List String := ["username", "password"]

/-- Keyword fields passed to the `Transcript(...)` constructor in
`TranscriptService.create_transcript`. -/
def transcriptServiceInsertFields : List String := ["video_id", "content", "chunk_index"]

/-! # Theorems

## String-primitive lemmas -/

theorem pyStrip_length_le (l : List Char) : (pyStrip l).length ≤ l.length := by
  have h1 : ((l.dropWhile pyIsSpace).reverse.dropWhile pyIsSpace).length
      ≤ (l.dropWhile pyIsSpace).reverse.length :=
    (List.dropWhile_sublist pyIsSpace).length_le
  have h2 : (l.dropWhile pyIsSpace).length ≤ l.length :=
    (List.dropWhile_sublist pyIsSpace).length_le
  simp only [pyStrip, List.length_reverse]
  exact le_trans h1 (by simpa using h2)

theorem pyStrip_append_space (l : List Char) : pyStrip (l ++ [' ']) = pyStrip l := by
  unfold pyStrip
  rw [List.dropWhile_append]
  rcases h : l.dropWhile pyIsSpace with _ | ⟨c, d⟩
  · simp [pyIsSpace]
  · simp only [List.isEmpty_cons, List.reverse_append]
    have hsp : pyIsSpace ' ' = true := by decide
    simp [hsp]

theorem nonspace_dropWhile (l : List Char) :
    nonspace (l.dropWhile pyIsSpace) = nonspace l := by
  induction l with
  | nil => rfl
  | cons c cs ih =>
    rw [List.dropWhile_cons]
    by_cases h : pyIsSpace c
    · simp only [h, if_true, ih]
      simp [nonspace, h]
    · simp [h]

theorem nonspace_reverse (l : List Char) : nonspace l.reverse = (nonspace l).reverse := by
  simp [nonspace]

theorem nonspace_pyStrip (l : List Char) : nonspace (pyStrip l) = nonspace l := by
  unfold pyStrip
  rw [nonspace_reverse, nonspace_dropWhile, nonspace_reverse, List.reverse_reverse,
    nonspace_dropWhile]

/-! ## `rfind` and `stepEnd` lemmas -/

theorem rfindSpaceAux_some (c : List Char) (start : Nat) :
    ∀ n p, rfindSpaceAux c start n = some p →
      start ≤ p ∧ p < start + n ∧ c.getD p 'a' = ' ' := by
  intro n
  induction n with
  | zero => intro p h; simp [rfindSpaceAux] at h
  | succ n ih =>
    intro p h
    rw [rfindSpaceAux] at h
    by_cases hs : c.getD (start + n) 'a' == ' '
    · rw [if_pos hs] at h
      cases h
      refine ⟨Nat.le_add_right _ _, by omega, by simpa using hs⟩
    · rw [if_neg hs] at h
      obtain ⟨h1, h2, h3⟩ := ih p h
      exact ⟨h1, by omega, h3⟩

theorem stepEnd_le (c : List Char) (size start : Nat) :
    stepEnd c size start ≤ c.length := by
  rw [stepEnd]
  set m := min (start + size) c.length with hm
  have hml : m ≤ c.length := by
    rw [hm]
    exact Nat.min_le_right _ _
  by_cases h : m < c.length
  · rw [if_pos h]
    rcases hr : rfindSpace c start (m + 1) with _ | p
    · exact hml
    · obtain ⟨h1, h2, _⟩ := rfindSpaceAux_some c start _ p hr
      change (if start < p then p + 1 else m) ≤ c.length
      by_cases hp : start < p
      · rw [if_pos hp]
        omega
      · rw [if_neg hp]
        exact hml
  · rw [if_neg h]
    exact hml

theorem stepEnd_progress (c : List Char) (size start : Nat)
    (hsize : 1 ≤ size) (hstart : start < c.length) :
    start < stepEnd c size start := by
  rw [stepEnd]
  set m := min (start + size) c.length with hm
  have hse : start < m := by
    rw [hm]
    exact lt_min (by omega) hstart
  by_cases h : m < c.length
  · rw [if_pos h]
    rcases hr : rfindSpace c start (m + 1) with _ | p
    · exact hse
    · change start < (if start < p then p + 1 else m)
      by_cases hp : start < p
      · rw [if_pos hp]
        omega
      · rw [if_neg hp]
        exact hse
  · rw [if_neg h]
    exact hse

/-! ## Slice lemmas -/

theorem pySlice_length_le (c : List Char) (a b : Nat) : (pySlice c a b).length ≤ b - a := by
  simp only [pySlice, List.length_take, List.length_drop]
  omega

theorem pySlice_append_drop (c : List Char) (a b : Nat) (h : a ≤ b) :
    pySlice c a b ++ c.drop b = c.drop a := by
  have hd : c.drop b = (c.drop a).drop (b - a) := by
    rw [List.drop_drop]
    congr 1
    omega
  rw [hd]
  exact List.take_append_drop (b - a) (c.drop a)

theorem pySlice_succ_space (s : List Char) (start p : Nat)
    (h1 : start ≤ p) (h2 : p < s.length) (h3 : s.getD p 'a' = ' ') :
    pySlice s start (p + 1) = pySlice s start p ++ [' '] := by
  have hq : s[p]? = some s[p] := List.getElem?_eq_getElem h2
  have hval : s[p] = ' ' := by
    have hg := List.getD_eq_getElem?_getD s p 'a'
    rw [hq] at hg
    rw [h3] at hg
    exact hg.symm
  unfold pySlice
  rw [show p + 1 - start = (p - start) + 1 by omega, List.take_succ,
    List.getElem?_drop, show start + (p - start) = p by omega, hq, hval]
  rfl

/-! ## Loop lemmas -/

theorem splitLoop_nil_of_ge (c : List Char) (size fuel start : Nat) (h : c.length ≤ start) :
    splitLoop c size fuel start = [] := by
  cases fuel with
  | zero => rfl
  | succ n => rw [splitLoop, if_neg (by omega)]

theorem splitLoop_fuel_irrel (c : List Char) (size : Nat) (hsize : 1 ≤ size) :
    ∀ f₁ f₂ start, c.length - start ≤ f₁ → c.length - start ≤ f₂ →
      splitLoop c size f₁ start = splitLoop c size f₂ start := by
  intro f₁
  induction f₁ with
  | zero =>
    intro f₂ start h1 _
    rw [splitLoop_nil_of_ge c size 0 start (by omega),
      splitLoop_nil_of_ge c size f₂ start (by omega)]
  | succ n ih =>
    intro f₂ start h1 h2
    by_cases hs : start < c.length
    · cases f₂ with
      | zero => omega
      | succ m =>
        have hprog := stepEnd_progress c size start hsize hs
        simp only [splitLoop, if_pos hs]
        congr 1
        exact ih m (stepEnd c size start) (by omega) (by omega)
    · rw [splitLoop_nil_of_ge c size (n + 1) start (by omega),
        splitLoop_nil_of_ge c size f₂ start (by omega)]

theorem strip_slice_le (c : List Char) (start e size : Nat) (h : e ≤ start + size) :
    (pyStrip (pySlice c start e)).length ≤ size :=
  le_trans (pyStrip_length_le _) (le_trans (pySlice_length_le c start e) (by omega))

theorem chunk_head_le (c : List Char) (size start : Nat) (hs : start < c.length) :
    (pyStrip (pySlice c start (stepEnd c size start))).length ≤ size := by
  rw [stepEnd]
  set m := min (start + size) c.length with hm
  have hms : m ≤ start + size := by
    rw [hm]
    exact Nat.min_le_left _ _
  have hstart_m : start ≤ m := by
    rw [hm]
    exact le_min (by omega) (by omega)
  by_cases h : m < c.length
  · rw [if_pos h]
    rcases hr : rfindSpace c start (m + 1) with _ | p
    · exact strip_slice_le c start m size (by omega)
    · obtain ⟨h1, h2, h3⟩ := rfindSpaceAux_some c start _ p hr
      change (pyStrip (pySlice c start (if start < p then p + 1 else m))).length ≤ size
      by_cases hp : start < p
      · rw [if_pos hp]
        have hpe : p ≤ m := by omega
        have hplen : p < c.length := by omega
        rw [pySlice_succ_space c start p (le_of_lt hp) hplen h3, pyStrip_append_space]
        exact strip_slice_le c start p size (by omega)
      · rw [if_neg hp]
        exact strip_slice_le c start m size (by omega)
  · rw [if_neg h]
    exact strip_slice_le c start m size (by omega)

theorem splitLoop_chunk_length (c : List Char) (size : Nat) :
    ∀ fuel start ch, ch ∈ splitLoop c size fuel start → ch.length ≤ size := by
  intro fuel
  induction fuel with
  | zero =>
    intro start ch h
    simp [splitLoop] at h
  | succ n ih =>
    intro start ch h
    rw [splitLoop] at h
    by_cases hs : start < c.length
    · rw [if_pos hs] at h
      rcases List.mem_cons.mp h with h | h
      · subst h
        exact chunk_head_le c size start hs
      · exact ih _ _ h
    · rw [if_neg hs] at h
      simp at h

theorem nonspace_append (a b : List Char) : nonspace (a ++ b) = nonspace a ++ nonspace b := by
  simp [nonspace]

theorem splitLoop_nonspace (c : List Char) (size : Nat) (hsize : 1 ≤ size) :
    ∀ fuel start, c.length - start ≤ fuel →
      nonspace (splitLoop c size fuel start).flatten = nonspace (c.drop start) := by
  intro fuel
  induction fuel with
  | zero =>
    intro start h
    rw [List.drop_eq_nil_of_le (by omega)]
    rfl
  | succ n ih =>
    intro start h
    by_cases hs : start < c.length
    · have hprog := stepEnd_progress c size start hsize hs
      have hle := stepEnd_le c size start
      simp only [splitLoop, if_pos hs, List.flatten_cons]
      rw [nonspace_append, nonspace_pyStrip, ih (stepEnd c size start) (by omega),
        ← nonspace_append, pySlice_append_drop c start _ (le_of_lt hprog)]
    · rw [splitLoop_nil_of_ge c size _ start (by omega),
        List.drop_eq_nil_of_le (by omega)]
      rfl

theorem flatten_filter_nonempty (L : List (List Char)) :
    (L.filter (fun l => !l.isEmpty)).flatten = L.flatten := by
  induction L with
  | nil => rfl
  | cons x xs ih =>
    by_cases h : x.isEmpty
    · have hx : x = [] := List.isEmpty_iff.mp h
      subst hx
      simpa using ih
    · have hx : (!x.isEmpty) = true := by simp [h]
      simp only [List.filter_cons, hx, if_true, List.flatten_cons, ih]

/-- **C5**: for every input string and chunk size (at least 1, which the loop
needs to make progress), concatenating the chunker's output preserves the
sequence of non-whitespace characters of the input, in order. -/
theorem chunker_preserves_nonspace (content : List Char) (size : Nat) (hsize : 1 ≤ size) :
    nonspace (split_into_chunks content size).flatten = nonspace content := by
  simp only [split_into_chunks]
  rw [flatten_filter_nonempty,
    splitLoop_nonspace (pyStrip content) size hsize (pyStrip content).length 0 (by omega),
    List.drop_zero]
  exact nonspace_pyStrip content

theorem chunker_preserves_nonspace_witness :
    1 ≤ 5 ∧ nonspace (split_into_chunks "ab c".data 5).flatten = nonspace "ab c".data :=
  ⟨by decide, chunker_preserves_nonspace "ab c".data 5 (by decide)⟩

/-- **C6**: no chunk produced by the chunking pipeline exceeds the selected
tier chunk size (proved unconditionally: trimming the trailing break space
keeps even word-splitting hard cuts within the bound). -/
theorem chunk_size_bounded (content : List Char) (ch : List Char)
    (h : ch ∈ chunk_texts content) :
    ch.length ≤ chunk_size_for_length (pyStrip content).length := by
  simp only [chunk_texts, split_into_chunks] at h
  rw [List.mem_filter] at h
  exact splitLoop_chunk_length _ _ _ _ _ h.1

theorem chunk_size_bounded_witness :
    "hello".data ∈ chunk_texts "hello".data ∧
      ("hello".data).length ≤ chunk_size_for_length (pyStrip "hello".data).length :=
  ⟨by decide, chunk_size_bounded "hello".data "hello".data (by decide)⟩

/-- **C7**: for chunk sizes of at least 1 the splitting loop terminates: each
iteration strictly advances the chunk start, and any fuel of at least the
remaining length yields the same (completed) result. -/
theorem chunker_terminates (content : List Char) (size : Nat) (hsize : 1 ≤ size) :
    (∀ start, start < content.length → start < stepEnd content size start) ∧
    (∀ f₁ f₂ start, content.length - start ≤ f₁ → content.length - start ≤ f₂ →
      splitLoop content size f₁ start = splitLoop content size f₂ start) :=
  ⟨fun start h => stepEnd_progress content size start hsize h,
   fun f₁ f₂ start h1 h2 => splitLoop_fuel_irrel content size hsize f₁ f₂ start h1 h2⟩

theorem chunker_terminates_witness : 0 < stepEnd "ab".data 1 0 :=
  (chunker_terminates "ab".data 1 (by decide)).1 0 (by decide)

/-! ## C1: the chunker refines the spec's description -/

theorem nps_none_of_le (s : List Char) (start : Nat) :
    ∀ j, j ≤ start → nearestPrecedingSpace s start j = none := by
  intro j
  induction j with
  | zero => intro _; rfl
  | succ i _ =>
    intro h
    rw [nearestPrecedingSpace, if_pos h]

theorem nps_some (s : List Char) (start : Nat) :
    ∀ j p, nearestPrecedingSpace s start j = some p →
      start < p ∧ p ≤ j ∧ s.getD p 'a' = ' ' := by
  intro j
  induction j with
  | zero => intro p h; cases h
  | succ i ih =>
    intro p h
    rw [nearestPrecedingSpace] at h
    by_cases h1 : i + 1 ≤ start
    · rw [if_pos h1] at h
      cases h
    · rw [if_neg h1] at h
      by_cases h2 : s.getD (i + 1) 'a' == ' '
      · rw [if_pos h2] at h
        cases h
        exact ⟨by omega, le_refl _, by simpa using h2⟩
      · rw [if_neg h2] at h
        obtain ⟨a, b, c'⟩ := ih p h
        exact ⟨a, by omega, c'⟩

theorem nps_eq_guarded (s : List Char) (start : Nat) :
    ∀ n, nearestPrecedingSpace s start (start + n)
      = (match rfindSpaceAux s start (n + 1) with
         | some p => if start < p then some p else none
         | none => none) := by
  intro n
  induction n with
  | zero =>
    rw [rfindSpaceAux]
    by_cases h : s.getD (start + 0) 'a' == ' '
    · rw [if_pos h]
      dsimp only
      rw [if_neg (by omega : ¬ start < start + 0)]
      exact nps_none_of_le s start (start + 0) (by omega)
    · rw [if_neg h, rfindSpaceAux]
      exact nps_none_of_le s start (start + 0) (by omega)
  | succ n ih =>
    rw [rfindSpaceAux]
    by_cases h : s.getD (start + (n + 1)) 'a' == ' '
    · have h' : s.getD (start + n + 1) 'a' == ' ' := by
        rw [show start + n + 1 = start + (n + 1) by omega]
        exact h
      rw [if_pos h]
      dsimp only
      rw [if_pos (by omega : start < start + (n + 1))]
      rw [show start + (n + 1) = start + n + 1 by omega, nearestPrecedingSpace,
        if_neg (by omega : ¬ start + n + 1 ≤ start), if_pos h']
    · have h' : ¬ s.getD (start + n + 1) 'a' == ' ' := by
        rw [show start + n + 1 = start + (n + 1) by omega]
        exact h
      rw [if_neg h]
      rw [show start + (n + 1) = start + n + 1 by omega, nearestPrecedingSpace,
        if_neg (by omega : ¬ start + n + 1 ≤ start), if_neg h']
      exact ih

theorem nps_eq_rfindSpace (s : List Char) (start j : Nat) (h : start ≤ j) :
    nearestPrecedingSpace s start j
      = (match rfindSpace s start (j + 1) with
         | some p => if start < p then some p else none
         | none => none) := by
  rw [rfindSpace, show j + 1 - start = (j - start) + 1 by omega]
  have hg := nps_eq_guarded s start (j - start)
  rw [show start + (j - start) = j by omega] at hg
  exact hg

theorem stepEnd_eq_of_nps_none (s : List Char) (size start : Nat)
    (hcut : min (start + size) s.length < s.length)
    (hsm : start ≤ min (start + size) s.length)
    (hr : nearestPrecedingSpace s start (min (start + size) s.length) = none) :
    stepEnd s size start = min (start + size) s.length := by
  rw [stepEnd, if_pos hcut]
  rw [nps_eq_rfindSpace s start _ hsm] at hr
  rcases hq : rfindSpace s start (min (start + size) s.length + 1) with _ | q
  · rfl
  · rw [hq] at hr
    dsimp only at hr
    change (if start < q then q + 1 else min (start + size) s.length) = _
    by_cases hsq : start < q
    · rw [if_pos hsq] at hr
      cases hr
    · rw [if_neg hsq]

theorem stepEnd_eq_of_nps_some (s : List Char) (size start p : Nat)
    (hcut : min (start + size) s.length < s.length)
    (hsm : start ≤ min (start + size) s.length)
    (hr : nearestPrecedingSpace s start (min (start + size) s.length) = some p) :
    stepEnd s size start = p + 1 := by
  rw [stepEnd, if_pos hcut]
  rw [nps_eq_rfindSpace s start _ hsm] at hr
  rcases hq : rfindSpace s start (min (start + size) s.length + 1) with _ | q
  · rw [hq] at hr
    cases hr
  · rw [hq] at hr
    dsimp only at hr
    change (if start < q then q + 1 else min (start + size) s.length) = _
    by_cases hsq : start < q
    · rw [if_pos hsq] at hr
      injection hr with hpq
      rw [if_pos hsq, hpq]
    · rw [if_neg hsq] at hr
      cases hr

theorem specSplitLoop_eq (s : List Char) (size : Nat) :
    ∀ fuel start, specSplitLoop s size fuel start = splitLoop s size fuel start := by
  intro fuel
  induction fuel with
  | zero => intro start; rfl
  | succ n ih =>
    intro start
    by_cases hs : start < s.length
    · conv_lhs => rw [specSplitLoop]
      conv_rhs => rw [splitLoop]
      rw [if_pos hs, if_pos hs]
      have hsm : start ≤ min (start + size) s.length := le_min (by omega) (le_of_lt hs)
      by_cases hcut : min (start + size) s.length < s.length
      · rw [if_pos hcut]
        rcases hr : nearestPrecedingSpace s start (min (start + size) s.length) with _ | p
        · dsimp only
          rw [stepEnd_eq_of_nps_none s size start hcut hsm hr, ih]
        · dsimp only
          obtain ⟨ha, hb, hc⟩ := nps_some s start _ p hr
          rw [stepEnd_eq_of_nps_some s size start p hcut hsm hr]
          rw [pySlice_succ_space s start p (le_of_lt ha) (by omega) hc, pyStrip_append_space]
          rw [ih]
      · rw [if_neg hcut]
        have hse : stepEnd s size start = min (start + size) s.length := by
          rw [stepEnd, if_neg hcut]
        rw [hse, ih]
    · rw [splitLoop_nil_of_ge s size _ start (by omega)]
      rw [specSplitLoop, if_neg hs]

theorem chunk_size_eq_spec (len : Nat) : chunk_size_for_length len = specChunkSize len := by
  simp only [chunk_size_for_length, CHUNK_SIZE_BY_LENGTH, chunkSizeLookup, specChunkSize,
    DEFAULT_CHUNK_SIZE]

theorem dropWhile_dropWhile (p : Char → Bool) (l : List Char) :
    (l.dropWhile p).dropWhile p = l.dropWhile p := by
  induction l with
  | nil => rfl
  | cons c cs ih =>
    rw [List.dropWhile_cons]
    by_cases h : p c
    · rw [if_pos h]
      exact ih
    · rw [if_neg h, List.dropWhile_cons, if_neg h]

theorem head?_dropWhile_false {p : Char → Bool} {l : List Char} {c : Char}
    (h : (l.dropWhile p).head? = some c) : p c = false := by
  have h2 := List.head?_dropWhile_not p l
  rw [h] at h2
  exact h2

theorem getLast?_dropWhile (p : Char → Bool) (l : List Char)
    (h : l.dropWhile p ≠ []) : (l.dropWhile p).getLast? = l.getLast? := by
  induction l with
  | nil => simp at h
  | cons c cs ih =>
    by_cases hp : p c
    · rw [List.dropWhile_cons, if_pos hp] at h ⊢
      rw [ih h]
      have hcs : cs ≠ [] := by
        intro hn
        rw [hn] at h
        simp at h
      rcases cs with _ | ⟨d, ds⟩
      · exact absurd rfl hcs
      · rw [List.getLast?_cons_cons]
    · rw [List.dropWhile_cons, if_neg hp]

theorem pyStrip_idem (l : List Char) : pyStrip (pyStrip l) = pyStrip l := by
  unfold pyStrip
  set A := l.dropWhile pyIsSpace with hA
  set B := A.reverse.dropWhile pyIsSpace with hB
  have hBr : B.reverse.dropWhile pyIsSpace = B.reverse := by
    rcases hB2 : B.reverse with _ | ⟨c, d⟩
    · rfl
    · have hBne : B ≠ [] := by
        intro h0
        rw [h0] at hB2
        cases hB2
      have h1 : B.getLast? = A.reverse.getLast? := getLast?_dropWhile pyIsSpace A.reverse hBne
      have h4 : A.head? = some c := by
        rw [← List.getLast?_reverse A, ← h1, ← List.head?_reverse B, hB2]
        rfl
      have h5 : pyIsSpace c = false :=
        head?_dropWhile_false (p := pyIsSpace) (l := l) h4
      rw [List.dropWhile_cons, if_neg (by simp [h5])]
  rw [hBr, List.reverse_reverse, hB, dropWhile_dropWhile]

/-- **C1**: the chunking pipeline of the source equals the spec's
description of it: tier-table size selection on the trimmed text, greedy
left-to-right splitting with the cut moved back to the nearest space
strictly after the chunk start, chunks trimmed and empty chunks dropped. -/
theorem chunker_matches_spec (content : List Char) :
    chunk_texts content = specChunker content := by
  simp only [chunk_texts, split_into_chunks, specChunker]
  rw [pyStrip_idem, specSplitLoop_eq, chunk_size_eq_spec]

/-! ## C2: the auth gate -/

theorem isExemptLoop_app (p m : String) :
    isExemptLoop appExemptRoutes p m
      = (appExemptRoutes.contains p || (p == "/users" && m == "POST")) := by
  by_cases h1 : p = "/login" <;> by_cases h2 : p = "/logout" <;>
    by_cases h3 : p = "/users" <;> by_cases h4 : m = "POST" <;>
    simp [appExemptRoutes, isExemptLoop, h1, h2, h3, h4]

/-- **C2**: the auth gate as wired by `create_app` behaves exactly as the
spec describes: the `/api`-stripped path is exempt iff it matches a member
of the exemption set or the request is a `POST` to `/users`; exempt requests
proceed unauthenticated; non-exempt requests without a valid token, or whose
subject has no user record, get 401; otherwise the resolved user and its id
are attached. -/
theorem auth_gate_matches_spec (users : List UserRec) (req : AuthReq) :
    require_auth appExemptRoutes users req = authGateSpec users req := by
  simp only [require_auth, authGateSpec, isExemptLoop_app]
  by_cases he : (appExemptRoutes.contains (stripApiPath req.path)
      || (stripApiPath req.path == "/users" && req.method == "POST")) = true
  · rw [if_pos he, if_pos he]
  · rw [if_neg he, if_neg he]
    rcases req.token with _ | uid
    · rfl
    · dsimp only
      rcases hu : get_user_by_id users uid with _ | u <;> rfl

/-! ## C10: transcript retrieval order -/

/-- **C10**: retrieving a video's transcripts returns exactly the stored
chunks of that video (a permutation of the filtered store), sorted by
ascending `chunk_index`; `get_all_transcripts` with a video filter and no
pagination coincides with `get_transcripts_by_video`. -/
theorem transcripts_sorted_by_chunk_index (st : DBState) (vid : Nat) :
    List.Sorted idxLE (get_transcripts_by_video st vid)
    ∧ (get_transcripts_by_video st vid).Perm
        (st.transcripts.filter (fun t => t.video_id == vid))
    ∧ get_all_transcripts st none none (some vid) = get_transcripts_by_video st vid :=
  ⟨List.sorted_insertionSort idxLE _, List.perm_insertionSort idxLE _, rfl⟩

/-! ## C9: the declared columns versus the fields the services use -/

/-- **C9** (recording the code bug): `UserService.create_user` inserts a
`password` field and `TranscriptService.create_transcript` inserts a
`chunk_index` field, but `models.py` declares neither column. -/
theorem models_missing_service_fields :
    ("password" ∈ userServiceInsertFields ∧ "password" ∉ userModelColumns)
    ∧ ("chunk_index" ∈ transcriptServiceInsertFields
        ∧ "chunk_index" ∉ transcriptModelColumns) := by
  decide

/-! ## C3: create_transcript replaces a video's chunks atomically -/

theorem mem_mkChunkRecords (n vid : Nat) (l : List (List Char)) (t : Transcript)
    (h : t ∈ mkChunkRecords n vid l) : t.video_id = vid := by
  simp only [mkChunkRecords, List.mem_map] at h
  obtain ⟨pr, _, rfl⟩ := h
  rfl

theorem filter_vid_append_news (ts news : List Transcript) (vid : Nat)
    (hnews : ∀ t ∈ news, t.video_id = vid) :
    (ts.filter (fun t => !(t.video_id == vid)) ++ news).filter
        (fun t => t.video_id == vid) = news := by
  rw [List.filter_append]
  have h1 : (ts.filter (fun t => !(t.video_id == vid))).filter
      (fun t => t.video_id == vid) = [] := by
    rw [List.filter_filter]
    have : (fun (t : Transcript) => (t.video_id == vid) && !(t.video_id == vid))
        = fun _ => false := by
      funext t
      exact Bool.and_not_self _
    rw [this, List.filter_false]
  have h2 : news.filter (fun t => t.video_id == vid) = news :=
    List.filter_eq_self.mpr (fun t ht => by simp [hnews t ht])
  rw [h1, h2, List.nil_append]

theorem filter_other_append_news (ts news : List Transcript) (vid : Nat)
    (hnews : ∀ t ∈ news, t.video_id = vid) :
    (ts.filter (fun t => !(t.video_id == vid)) ++ news).filter
        (fun t => !(t.video_id == vid)) = ts.filter (fun t => !(t.video_id == vid)) := by
  rw [List.filter_append]
  have h1 : (ts.filter (fun t => !(t.video_id == vid))).filter
      (fun t => !(t.video_id == vid)) = ts.filter (fun t => !(t.video_id == vid)) := by
    rw [List.filter_filter]
    congr 1
    funext t
    exact Bool.and_self _
  have h2 : news.filter (fun t => !(t.video_id == vid)) = [] := by
    rw [List.filter_eq_nil_iff]
    intro t ht
    simp [hnews t ht]
  rw [h1, h2, List.append_nil]

theorem strip_nil_of_guard (content : List Char)
    (h : (content.isEmpty || (pyStrip content).isEmpty) = true) : pyStrip content = [] := by
  rcases Bool.or_eq_true_iff.mp h with h | h
  · rw [List.isEmpty_iff.mp h]
    rfl
  · exact List.isEmpty_iff.mp h

/-- **C3**: `create_transcript` fails with a validation error exactly when
the content is empty/whitespace-only or the video does not exist; on failure
the store is unchanged; on success the video's stored chunks are exactly the
newly computed ones and every other video's chunks are untouched. -/
theorem create_transcript_contract (st : DBState) (vid : Nat) (content : List Char) :
    (exceptIsOk (create_transcript st vid content).2 = false ↔
        pyStrip content = [] ∨ video_exists st vid = false)
    ∧ (exceptIsOk (create_transcript st vid content).2 = false →
        (create_transcript st vid content).1 = st)
    ∧ (∀ news, (create_transcript st vid content).2 = .ok news →
        news = mkChunkRecords st.nextId vid (chunk_texts content)
        ∧ ((create_transcript st vid content).1).transcripts.filter
            (fun t => t.video_id == vid) = news
        ∧ ((create_transcript st vid content).1).transcripts.filter
            (fun t => !(t.video_id == vid))
            = st.transcripts.filter (fun t => !(t.video_id == vid))) := by
  by_cases h1 : (content.isEmpty || (pyStrip content).isEmpty) = true
  · have hc : create_transcript st vid content
        = (st, Except.error "Transcript content cannot be empty") := by
      simp only [create_transcript, if_pos h1]
    rw [hc]
    exact ⟨⟨fun _ => Or.inl (strip_nil_of_guard content h1), fun _ => rfl⟩,
      fun _ => rfl, fun news h => nomatch h⟩
  · by_cases h2 : video_exists st vid = true
    · have hc : create_transcript st vid content
          = ({ st with
                transcripts := st.transcripts.filter (fun t => !(t.video_id == vid))
                  ++ mkChunkRecords st.nextId vid (chunk_texts content),
                nextId := st.nextId
                  + (mkChunkRecords st.nextId vid (chunk_texts content)).length },
             Except.ok (mkChunkRecords st.nextId vid (chunk_texts content))) := by
        simp only [create_transcript, if_neg h1]
        rw [if_neg (by simp [h2])]
      rw [hc]
      refine ⟨?_, ?_, ?_⟩
      · constructor
        · intro hk
          cases hk
        · intro hk
          exfalso
          rcases hk with hk | hk
          · exact h1 (by simp [hk, List.isEmpty_iff])
          · rw [h2] at hk
            cases hk
      · intro hk
        cases hk
      · intro news h
        have hne : news = mkChunkRecords st.nextId vid (chunk_texts content) := by
          injection h with h
          exact h.symm
        subst hne
        exact ⟨rfl,
          filter_vid_append_news st.transcripts _ vid
            (mem_mkChunkRecords st.nextId vid (chunk_texts content)),
          filter_other_append_news st.transcripts _ vid
            (mem_mkChunkRecords st.nextId vid (chunk_texts content))⟩
    · have hc : create_transcript st vid content
          = (st, Except.error "Video does not exist") := by
        simp only [create_transcript, if_neg h1]
        rw [if_pos (by simp [h2])]
      rw [hc]
      exact ⟨⟨fun _ => Or.inr (by simpa using h2), fun _ => rfl⟩,
        fun _ => rfl, fun news h => nomatch h⟩

theorem create_transcript_contract_witness :
    (create_transcript ⟨[], [], 0⟩ 1 [' ']).1 = ⟨[], [], 0⟩ :=
  (create_transcript_contract ⟨[], [], 0⟩ 1 [' ']).2.1 (by decide)

/-! ## C4: chunk-index contiguity -/

theorem splitLoop_succ (c : List Char) (size fuel start : Nat) :
    splitLoop c size (fuel + 1) start
      = if start < c.length then
          pyStrip (pySlice c start (stepEnd c size start)) ::
            splitLoop c size fuel (stepEnd c size start)
        else [] := rfl

theorem dropWhile_replicate_a (n : Nat) :
    (List.replicate n 'a').dropWhile pyIsSpace = List.replicate n 'a' := by
  cases n with
  | zero => rfl
  | succ m =>
    rw [List.replicate_succ, List.dropWhile_cons, if_neg (by decide)]

theorem pyStrip_replicate_a (n : Nat) :
    pyStrip (List.replicate n 'a') = List.replicate n 'a' := by
  unfold pyStrip
  rw [dropWhile_replicate_a, List.reverse_replicate, dropWhile_replicate_a,
    List.reverse_replicate]

theorem getD_replicate_a (n i : Nat) : (List.replicate n 'a').getD i 'a' = 'a' := by
  rw [List.getD_eq_getElem?_getD, List.getElem?_replicate]
  by_cases h : i < n
  · rw [if_pos h]
    rfl
  · rw [if_neg h]
    rfl

theorem rfindSpaceAux_replicate_a (m start : Nat) :
    ∀ k, rfindSpaceAux (List.replicate m 'a') start k = none := by
  intro k
  induction k with
  | zero => rfl
  | succ n ih =>
    rw [rfindSpaceAux, getD_replicate_a, if_neg (by decide), ih]

theorem stepEnd_big1 : stepEnd (List.replicate 2001 'a') 2000 0 = 2000 := by
  rw [stepEnd, List.length_replicate,
    if_pos (by decide : min (0 + 2000) 2001 < 2001), rfindSpace,
    rfindSpaceAux_replicate_a]
  decide

theorem stepEnd_big2 : stepEnd (List.replicate 2001 'a') 2000 2000 = 2001 := by
  rw [stepEnd, List.length_replicate,
    if_neg (by decide : ¬ min (2000 + 2000) 2001 < 2001)]
  decide

theorem chunk_big1 :
    pyStrip (pySlice (List.replicate 2001 'a') 0 2000) = List.replicate 2000 'a' := by
  rw [pySlice, List.drop_replicate, List.take_replicate,
    show (2001 : Nat) - 0 = 2001 from rfl, show min (2000 - 0) 2001 = 2000 from by decide]
  exact pyStrip_replicate_a 2000

theorem chunk_big2 :
    pyStrip (pySlice (List.replicate 2001 'a') 2000 2001) = ['a'] := by
  rw [pySlice, List.drop_replicate, List.take_replicate,
    show (2001 : Nat) - 2000 = 1 from rfl, show min (2001 - 2000) 1 = 1 from rfl]
  exact pyStrip_replicate_a 1

theorem splitLoop_big :
    splitLoop (List.replicate 2001 'a') 2000 2001 0 = [List.replicate 2000 'a', ['a']] := by
  have e1 : splitLoop (List.replicate 2001 'a') 2000 2001 0
      = splitLoop (List.replicate 2001 'a') 2000 (2000 + 1) 0 := rfl
  rw [e1, splitLoop_succ,
    if_pos (by rw [List.length_replicate]; omega : (0 : Nat) < (List.replicate 2001 'a').length),
    stepEnd_big1]
  have e2 : splitLoop (List.replicate 2001 'a') 2000 2000 2000
      = splitLoop (List.replicate 2001 'a') 2000 (1999 + 1) 2000 := rfl
  rw [e2, splitLoop_succ,
    if_pos (by rw [List.length_replicate]; omega :
      (2000 : Nat) < (List.replicate 2001 'a').length),
    stepEnd_big2,
    splitLoop_nil_of_ge _ _ _ _ (by rw [List.length_replicate] :
      (List.replicate 2001 'a').length ≤ 2001),
    chunk_big1, chunk_big2]

theorem chunk_texts_big :
    chunk_texts (List.replicate 2001 'a') = [List.replicate 2000 'a', ['a']] := by
  simp only [chunk_texts, split_into_chunks]
  rw [pyStrip_replicate_a, pyStrip_replicate_a, List.length_replicate,
    show chunk_size_for_length 2001 = 2000 from by decide, splitLoop_big]
  have hne1 : (!(List.replicate 2000 'a').isEmpty) = true := rfl
  have hne2 : (!(['a'] : List Char).isEmpty) = true := rfl
  rw [List.filter_cons, List.filter_cons, List.filter_nil, if_pos hne1, if_pos hne2]

theorem create_transcript_ok_eval (st : DBState) (vid : Nat) (content : List Char)
    (h1 : ¬ (content.isEmpty || (pyStrip content).isEmpty) = true)
    (h2 : ¬ (!(video_exists st vid)) = true) :
    create_transcript st vid content
      = ({ st with
            transcripts := st.transcripts.filter (fun t => !(t.video_id == vid))
              ++ mkChunkRecords st.nextId vid (chunk_texts content),
            nextId := st.nextId
              + (mkChunkRecords st.nextId vid (chunk_texts content)).length },
         Except.ok (mkChunkRecords st.nextId vid (chunk_texts content))) := by
  simp only [create_transcript]
  rw [if_neg h1, if_neg h2]

theorem create_big_eval :
    (create_transcript ⟨[1], [], 0⟩ 1 (List.replicate 2001 'a')).1
      = ⟨[1], [⟨0, 1, List.replicate 2000 'a', 0⟩, ⟨1, 1, ['a'], 1⟩], 2⟩ := by
  have hguard : ¬ ((List.replicate 2001 'a').isEmpty
      || (pyStrip (List.replicate 2001 'a')).isEmpty) = true := by
    have hie : (List.replicate 2001 'a').isEmpty = false := rfl
    rw [pyStrip_replicate_a, hie]
    decide
  rw [create_transcript_ok_eval ⟨[1], [], 0⟩ 1 (List.replicate 2001 'a') hguard
      (by decide : ¬ (!(video_exists ⟨[1], [], 0⟩ 1)) = true),
    chunk_texts_big]
  rfl

theorem delete_big_eval :
    (delete_transcript
        (⟨[1], [⟨0, 1, List.replicate 2000 'a', 0⟩, ⟨1, 1, ['a'], 1⟩], 2⟩ : DBState) 0).1
      = ⟨[1], [⟨1, 1, ['a'], 1⟩], 2⟩ := rfl

/-- **C4 counterexample**: a reachable store in which video 1's chunk
indices are not contiguous from 0: create a 2001-character transcript for
video 1 (tier size 2000, so two chunks with indices 0 and 1), then delete
the single transcript row with id 0 (the chunk with index 0); the remaining
index set is `{1}`, not `{0}`. -/
theorem chunk_index_gap_after_delete :
    ReachableT (delete_transcript
        (create_transcript ⟨[1], [], 0⟩ 1 (List.replicate 2001 'a')).1 0).1
    ∧ ¬ ContiguousFrom0 ((delete_transcript
        (create_transcript ⟨[1], [], 0⟩ 1 (List.replicate 2001 'a')).1 0).1).transcripts 1 := by
  constructor
  · exact ReachableT.del _ 0 (ReachableT.create _ 1 _ (ReachableT.init [1] 0))
  · rw [create_big_eval, delete_big_eval]
    unfold ContiguousFrom0 chunkIndexes
    decide

theorem mkChunkRecords_indexes (n vid : Nat) (l : List (List Char)) :
    (mkChunkRecords n vid l).map (fun t => t.chunk_index) = List.range l.length := by
  rw [mkChunkRecords, List.map_map,
    show ((fun (t : Transcript) => t.chunk_index) ∘
        (fun (p : Nat × List Char) =>
          ({ id := n + p.1, video_id := vid, content := p.2,
             chunk_index := p.1 } : Transcript)))
      = Prod.fst from funext fun p => rfl,
    List.enum_map_fst]

theorem chunkIndexes_other (ts news : List Transcript) (vid w : Nat) (hw : w ≠ vid)
    (hnews : ∀ t ∈ news, t.video_id = vid) :
    chunkIndexes (ts.filter (fun t => !(t.video_id == vid)) ++ news) w
      = chunkIndexes ts w := by
  unfold chunkIndexes
  rw [List.filter_append]
  have h2 : news.filter (fun t => t.video_id == w) = [] := by
    rw [List.filter_eq_nil_iff]
    intro t ht
    have hv := hnews t ht
    simp [hv]
    exact fun hh => hw hh.symm
  have h1 : (ts.filter (fun t => !(t.video_id == vid))).filter
      (fun t => t.video_id == w) = ts.filter (fun t => t.video_id == w) := by
    rw [List.filter_filter]
    apply List.filter_congr
    intro t _
    by_cases ht : t.video_id = w
    · simp [ht, hw]
    · simp [ht]
  rw [h1, h2, List.append_nil]

theorem create_preserves_inv (st : DBState) (vid : Nat) (content : List Char)
    (hinv : TranscriptInv st) : TranscriptInv (create_transcript st vid content).1 := by
  by_cases h1 : (content.isEmpty || (pyStrip content).isEmpty) = true
  · have hc : (create_transcript st vid content).1 = st := by
      simp only [create_transcript, if_pos h1]
    rw [hc]
    exact hinv
  · by_cases h2 : video_exists st vid = true
    · have hc : (create_transcript st vid content).1
          = { st with
                transcripts := st.transcripts.filter (fun t => !(t.video_id == vid))
                  ++ mkChunkRecords st.nextId vid (chunk_texts content),
                nextId := st.nextId
                  + (mkChunkRecords st.nextId vid (chunk_texts content)).length } := by
        simp only [create_transcript, if_neg h1]
        rw [if_neg (by simp [h2])]
      rw [hc]
      intro w
      by_cases hw : w = vid
      · subst hw
        unfold ContiguousFrom0
        have hidx : chunkIndexes
            (st.transcripts.filter (fun t => !(t.video_id == w))
              ++ mkChunkRecords st.nextId w (chunk_texts content)) w
            = List.range (chunk_texts content).length := by
          unfold chunkIndexes
          rw [filter_vid_append_news st.transcripts _ w
            (mem_mkChunkRecords st.nextId w (chunk_texts content)),
            mkChunkRecords_indexes]
        rw [hidx, List.length_range]
      · unfold ContiguousFrom0
        rw [chunkIndexes_other st.transcripts _ vid w hw
          (mem_mkChunkRecords st.nextId vid (chunk_texts content))]
        exact hinv w
    · have hc : (create_transcript st vid content).1 = st := by
        simp only [create_transcript, if_neg h1]
        rw [if_pos (by simp [h2])]
      rw [hc]
      exact hinv

/-- **C4 (amended)**: chunk indices per video are contiguous from 0 in every
state reachable by transcript creations, and `create_transcript` preserves
the invariant from any state satisfying it; `delete_transcript` does not
preserve it (it deletes a single row, see `chunk_index_gap_after_delete`). -/
theorem chunk_index_contiguous :
    (∀ st vid content, TranscriptInv st → TranscriptInv (create_transcript st vid content).1)
    ∧ (∀ st, ReachableCreate st → TranscriptInv st) := by
  refine ⟨create_preserves_inv, ?_⟩
  intro st h
  induction h with
  | init videos nextId =>
    intro vid
    unfold ContiguousFrom0 chunkIndexes
    simp
  | create st vid content _ ih => exact create_preserves_inv st vid content ih

theorem chunk_index_contiguous_witness :
    TranscriptInv (create_transcript ⟨[1], [], 5⟩ 1 "ab".data).1 :=
  chunk_index_contiguous.1 ⟨[1], [], 5⟩ 1 "ab".data
    (fun _ => List.Perm.refl _)

/-! ## C8: duplicate username handling -/

/-- **C8 counterexample**: with the empty username (and a fine password),
both creation requests return 400 and create nothing, so the unrestricted
"one 201 and one 409 for every username" fails. -/
theorem duplicate_username_empty_counterexample :
    (create_user_route ⟨[], 0⟩ (some ⟨some [], some ['p', 'w']⟩)).2 = 400
    ∧ (create_user_route ⟨[], 0⟩ (some ⟨some [], some ['p', 'w']⟩)).1 = ⟨[], 0⟩
    ∧ (create_user_route (create_user_route ⟨[], 0⟩ (some ⟨some [], some ['p', 'w']⟩)).1
        (some ⟨some [], some ['p', 'w']⟩)).2 = 400 := by
  decide

theorem isEmpty_false_of_ne_nil {l : List Char} (h : l ≠ []) : l.isEmpty = false := by
  cases l with
  | nil => exact absurd rfl h
  | cons a as => rfl

theorem create_user_route_ok (st : UserState) (username password : List Char)
    (h1 : username.isEmpty = false) (h2 : (pyStrip username).isEmpty = false)
    (h3 : password.isEmpty = false)
    (h4 : st.users.any (fun u => u.username == username) = false)
    (h5 : st.users.any (fun u => u.username == pyStrip username) = false) :
    create_user_route st (some ⟨some username, some password⟩)
      = ({ users := st.users
            ++ [⟨st.nextId, pyStrip username, generate_password_hash password⟩],
           nextId := st.nextId + 1 }, 201) := by
  simp [create_user_route, falsyStr, username_exists, userservice_create_user,
    h1, h2, h3, h4, h5]

theorem create_user_route_conflict (st : UserState) (username password : List Char)
    (h1 : username.isEmpty = false) (h2 : (pyStrip username).isEmpty = false)
    (h3 : password.isEmpty = false)
    (hstored : st.users.any (fun u => u.username == pyStrip username) = true) :
    create_user_route st (some ⟨some username, some password⟩) = (st, 409) := by
  by_cases hraw : st.users.any (fun u => u.username == username) = true
  · simp [create_user_route, falsyStr, username_exists, h1, h3, hraw]
  · simp [create_user_route, falsyStr, username_exists, userservice_create_user,
      h1, h2, h3, hraw, hstored]

/-- **C8 (amended)**: for a username that is non-empty, not whitespace-only
and not already stored (raw or trimmed), with a non-empty password, two
creation requests yield: first a 201 adding exactly one record, then a 409
leaving the store unchanged. -/
theorem duplicate_username_conflict (st : UserState) (username password : List Char)
    (hu1 : username ≠ []) (hu2 : pyStrip username ≠ []) (hp : password ≠ [])
    (hfresh : ∀ u ∈ st.users, u.username ≠ username ∧ u.username ≠ pyStrip username) :
    (create_user_route st (some ⟨some username, some password⟩)).2 = 201
    ∧ (create_user_route st (some ⟨some username, some password⟩)).1.users
        = st.users ++ [⟨st.nextId, pyStrip username, generate_password_hash password⟩]
    ∧ (create_user_route
        (create_user_route st (some ⟨some username, some password⟩)).1
        (some ⟨some username, some password⟩)).2 = 409
    ∧ (create_user_route
        (create_user_route st (some ⟨some username, some password⟩)).1
        (some ⟨some username, some password⟩)).1
      = (create_user_route st (some ⟨some username, some password⟩)).1 := by
  have h1 := isEmpty_false_of_ne_nil hu1
  have h2 := isEmpty_false_of_ne_nil hu2
  have h3 := isEmpty_false_of_ne_nil hp
  have h4 : st.users.any (fun u => u.username == username) = false := by
    rw [List.any_eq_false]
    intro u hu
    simp [(hfresh u hu).1]
  have h5 : st.users.any (fun u => u.username == pyStrip username) = false := by
    rw [List.any_eq_false]
    intro u hu
    simp [(hfresh u hu).2]
  have e1 := create_user_route_ok st username password h1 h2 h3 h4 h5
  have hstored : ((create_user_route st (some ⟨some username, some password⟩)).1).users.any
      (fun u => u.username == pyStrip username) = true := by
    rw [e1]
    simp
  have e2 := create_user_route_conflict
    (create_user_route st (some ⟨some username, some password⟩)).1 username password
    h1 h2 h3 hstored
  refine ⟨by rw [e1], by rw [e1], by rw [e2], by rw [e2]⟩

theorem duplicate_username_conflict_witness :
    (create_user_route ⟨[], 0⟩ (some ⟨some ['b', 'o', 'b'], some ['p', 'w']⟩)).2 = 201 :=
  (duplicate_username_conflict ⟨[], 0⟩ ['b', 'o', 'b'] ['p', 'w']
    (by decide) (by decide) (by decide) (by simp)).1

end AskVid
